import Mathlib

/-!
Verification of the Exotel analytics pipeline core: phone normalization
(`normalize_phone`), batch tenant classification (`batch_lookup`), paginated
record fetch (`fetch_calls`), metric aggregation (`process_analytics`) and
period comparison (`calculate_comparison`), shallowly embedded from the
Python sources (`lambda_package/tenant_lookup.py`, `lambda_package/lambda_handler.py`,
`app.py`).

Strings are modelled as Lean `String`, machine floats as `ℚ` (with Python's
`round(x, 1)` modelled as round-half-to-even on rationals), fallible
database / HTTP calls as explicit success flags or response scripts.
-/

namespace ExotelAnalytics

/-! ### Phone normalization (`TenantLookup.normalize_phone`) -/

/-- `''.join(filter(str.isdigit, phone_str))`: keep only digit characters. -/
def stripDigits (s : String) : String :=
  String.mk (s.data.filter Char.isDigit)

/-- `if normalized.startswith('0') and len(normalized) == 11: normalized = normalized[1:]` -/
def normStep (d : List Char) : List Char :=
  if d.head? = some '0' ∧ d.length = 11 then d.drop 1 else d

/-- The length-dispatch of `normalize_phone`: 10 digits get the country code
`91` prepended; 12 digits starting with `91` are kept; more than 12 digits are
truncated to the last 12; anything else is returned as-is. -/
def normFormat (d : List Char) : List Char :=
  if d.length = 10 then '9' :: '1' :: d
  else if d.length = 12 ∧ d.take 2 = ['9', '1'] then d
  else if d.length > 12 then d.drop (d.length - 12)
  else d

/-- Digit-list core of `normalize_phone` after the non-digit strip. -/
def normalizeDigits (d : List Char) : List Char :=
  normFormat (normStep d)

/-- The normalized key computed for a truthy (non-empty) input string. -/
def normKey (phone : String) : String :=
  String.mk (normalizeDigits (phone.data.filter Char.isDigit))

/-- `TenantLookup.normalize_phone`. Python returns `None` exactly when the
input is falsy (the empty string); otherwise it returns the normalized digit
string, which may itself be empty when the input carries no digits. -/
def normalize_phone (phone : String) : Option String :=
  if phone = "" then none else some (normKey phone)

/-! ### Python `dict` helpers

Python dicts are modelled as association lists in which a later binding for
the same key overwrites an earlier one (last-wins lookup), while `items()`
iterates keys in first-insertion order. -/

/-- Last-wins lookup, matching assignment semantics of a Python dict built by
iterating bindings left to right. -/
def dGet {α β : Type} [DecidableEq α] : List (α × β) → α → Option β
  | [], _ => none
  | (a, b) :: l, k =>
    match dGet l k with
    | some v => some v
    | none => if a = k then some b else none

/-- Keys in first-occurrence order, as returned by Python `dict.keys()`. -/
def dedupKeys {α : Type} [DecidableEq α] : List α → List α
  | [] => []
  | a :: l => a :: (dedupKeys l).filter (fun b => b ≠ a)

/-- `dict.items()`: first-insertion key order, each key paired with its last
assigned value. -/
def dItems {α β : Type} [DecidableEq α] (l : List (α × β)) : List (α × β) :=
  (dedupKeys (l.map Prod.fst)).filterMap (fun k => (dGet l k).map (fun v => (k, v)))

/-- The last element of a list satisfying a predicate (used to describe which
raw phone survives when several collapse onto one dict key). -/
def lastSuchThat {α : Type} (f : α → Bool) : List α → Option α
  | [] => none
  | a :: l =>
    match lastSuchThat f l with
    | some b => some b
    | none => if f a then some a else none

/-! ### Tenant classification (`TenantLookup.batch_lookup`)

The two backing stores are modelled by the column values the SQL queries
touch: the live table's `tenant_phone_number` column and the historical
table's `phone`, `mobile`, `tenant_name`, `tenant_property_name` columns.
`REGEXP_REPLACE(col, '[^0-9]', '', 'g')` is `stripDigits`. A query-failure
path (`except` clause) is modelled by the `ok` flag. -/

/-- One row of the historical table `all_tenants_data_upto_2025_09_09`. -/
structure HistRow where
  phone : String
  mobile : String
  tenant_name : String
  tenant_property_name : String
  deriving DecidableEq

/-- The two backing stores. -/
structure TenantDB where
  live : List String
  hist : List HistRow
  deriving DecidableEq

/-- The `info` dict attached to a lookup result: `{'found_in': 'live_data'}`
or `{'found_in': 'historical_data', 'name': …, 'property': …}`. -/
inductive TenantInfo where
  | liveData
  | historicalData (name : String) (property : String)
  deriving DecidableEq

/-- One value of the `batch_lookup` result dict: `(is_tenant, call_type, info)`. -/
abbrev LookupResult := Bool × String × Option TenantInfo

/-- Live-table query of `batch_lookup`: the set of stripped
`tenant_phone_number` values that equal any key of the batch. -/
def liveResults (db : TenantDB) (keys : List String) : List String :=
  (db.live.map stripDigits).filter (fun v => decide (v ∈ keys))

/-- Historical-table query of `batch_lookup`: rows whose stripped `phone` or
stripped `mobile` equals any key, keyed (dict-style, last row wins) by the
stripped `phone` column, carrying `tenant_name` / `tenant_property_name`. -/
def histResults (db : TenantDB) (keys : List String) : List (String × String × String) :=
  (db.hist.filter (fun r =>
    decide (stripDigits r.phone ∈ keys) || decide (stripDigits r.mobile ∈ keys))).map
    (fun r => (stripDigits r.phone, r.tenant_name, r.tenant_property_name))

/-- The result-building step of `batch_lookup` for one normalized key: live
store first, then historical store, else enquiry. -/
def classifyKey (db : TenantDB) (keys : List String) (k : String) : LookupResult :=
  if k ∈ liveResults db keys then (true, "service", some TenantInfo.liveData)
  else
    match dGet (histResults db keys) k with
    | some (n, pr) => (true, "service", some (TenantInfo.historicalData n pr))
    | none => (false, "enquiry", none)

/-- `normalized_list = list(normalized_phones.keys())`: the distinct
normalized keys of the truthy input phones, in first-occurrence order. -/
def batchKeys (phones : List String) : List String :=
  dedupKeys ((phones.filter (fun p => decide (p ≠ ""))).map normKey)

/-- The bindings inserted into the `normalized_phones` dict:
`{self.normalize_phone(p): p for p in phone_numbers if p}` before last-wins
key collapsing. -/
def batchPairs (phones : List String) : List (String × String) :=
  (phones.filter (fun p => decide (p ≠ ""))).map (fun p => (normKey p, p))

/-- `TenantLookup.batch_lookup`. `ok = false` models the `except` path (a
backing-store query raised), on which the partially initialized `results`
dict — still empty — is returned. The result maps each surviving raw phone
(the last one inserted for its normalized key) to its classification. -/
def batch_lookup (db : TenantDB) (ok : Bool) (phones : List String) :
    List (String × LookupResult) :=
  if (batchPairs phones).isEmpty then []
  else if !ok then []
  else (dItems (batchPairs phones)).map
    (fun e => (e.2, classifyKey db (batchKeys phones) e.1))

/-! ### Paginated fetch (`ExotelAnalytics.fetch_calls`)

The HTTP exchange is modelled by a script: the list of responses the server
returns to successive requests. `netFailure` models `requests.get` raising
(timeout / connection error), which lands in the function-level `except` and
returns the empty list. A `response` carries the HTTP status, the parsed
`Calls` array and `Metadata.NextPageUri`. -/

/-- One call record as used by the pipeline (the JSON fields the aggregation
touches). -/
structure CallRecord where
  Sid : String
  Direction : String
  From : String
  Status : String
  Duration : Nat
  deriving DecidableEq

/-- One scripted HTTP outcome for a pagination request. -/
inductive ApiResponse where
  | response (status : Nat) (calls : List CallRecord) (nextPageUri : Option String)
  | netFailure
  deriving DecidableEq

/-- The `while True` pagination loop. `none` means the script was too short
to cover all requests the loop would issue. -/
def fetchGo : List ApiResponse → List CallRecord → Option (List CallRecord)
  | [], _ => none
  | ApiResponse.netFailure :: _, _ => some []
  | ApiResponse.response status calls next :: rest, acc =>
    if status = 200 then
      if calls.isEmpty then some acc
      else
        match next with
        | none => some (acc ++ calls)
        | some _ => fetchGo rest (acc ++ calls)
    else some acc

/-- `ExotelAnalytics.fetch_calls` run against a response script. -/
def fetch_calls (script : List ApiResponse) : Option (List CallRecord) :=
  fetchGo script []

/-- Whether a response makes the loop issue a further request: HTTP 200, a
non-empty page, and a next-page cursor present. -/
def continues : ApiResponse → Bool
  | ApiResponse.response status calls next =>
    status == 200 && !calls.isEmpty && next.isSome
  | ApiResponse.netFailure => false

/-- Number of HTTP requests the loop issues against a script (each consumed
response is one request; a raising request also counts). -/
def fetchRequests : List ApiResponse → Nat
  | [] => 0
  | r :: rest => if continues r then 1 + fetchRequests rest else 1

/-- The records a response delivers (only a successful response carries a
usable `Calls` array). -/
def pageRecords : ApiResponse → List CallRecord
  | ApiResponse.response status calls _ => if status = 200 then calls else []
  | ApiResponse.netFailure => []

/-- Total number of records carried by the successful pages of a script. -/
def scriptRecords (s : List ApiResponse) : Nat :=
  (s.map (fun r => (pageRecords r).length)).sum

/-- Concrete record fixture used by witnesses and counterexamples. -/
def recA : CallRecord := ⟨"sid-a", "inbound", "+919876543210", "completed", 30⟩

/-- Concrete record fixture used by witnesses and counterexamples. -/
def recB : CallRecord := ⟨"sid-b", "inbound", "9876543210", "no-answer", 0⟩

/-- Concrete record fixture used by witnesses and counterexamples. -/
def recC : CallRecord := ⟨"sid-c", "outbound-dial", "08012345678", "completed", 45⟩

/-! ### Rounding

Python's `round(x, 1)` is modelled on `ℚ` as round-half-to-even of `10 * x`
divided by `10`. -/

/-- Round-half-to-even to an integer. -/
def roundHalfEven (q : ℚ) : ℤ :=
  if q - Int.floor q < 1 / 2 then Int.floor q
  else if 1 / 2 < q - Int.floor q then Int.floor q + 1
  else if Int.floor q % 2 = 0 then Int.floor q else Int.floor q + 1

/-- `round(x, 1)` on rationals. -/
def pyRound1 (q : ℚ) : ℚ :=
  (roundHalfEven (q * 10) : ℚ) / 10

/-! ### Aggregation (`ExotelAnalytics.process_analytics`)

Modelled without the optional exophone filter (no claim touches it); the
DataFrame is the list of records, the Service/Enquiry categorization and the
`merge` on `Sid` are reproduced with pandas left-merge semantics. -/

/-- `categorize_call`: look a raw phone up in the batch results, defaulting a
missing phone to `enquiry`. -/
def categoryOf (lookup : List (String × LookupResult)) (phone : String) : String :=
  match dGet lookup phone with
  | some (_, t, _) => t
  | none => "enquiry"

/-- `incoming_df['From'].unique().tolist()`: distinct `From` values of the
inbound records, in first-occurrence order. -/
def uniqueFroms (calls : List CallRecord) : List String :=
  dedupKeys ((calls.filter (fun r => decide (r.Direction = "inbound"))).map (fun r => r.From))

/-- The rows of `incoming_df` sharing a given row's `Sid` (the right-hand
match set of the pandas left merge on `Sid`). -/
def sidMatches (calls : List CallRecord) (r : CallRecord) : List CallRecord :=
  (calls.filter (fun s => decide (s.Direction = "inbound"))).filter
    (fun s => decide (s.Sid = r.Sid))

/-- `df.merge(incoming_df[['Sid', 'call_category']], on='Sid', how='left')`
followed by `fillna('outgoing')`: each row is paired with the category of
every inbound row sharing its `Sid` (duplicating on multi-matches, as pandas
does), or with `outgoing` when no inbound row matches. -/
def mergedCategories (calls : List CallRecord) (lookup : List (String × LookupResult)) :
    List (CallRecord × String) :=
  calls.flatMap (fun r =>
    if (sidMatches calls r).isEmpty then [(r, "outgoing")]
    else (sidMatches calls r).map (fun s => (r, categoryOf lookup s.From)))

/-- The aggregated metrics of one run (histogram and breakdown fields are
omitted: no claim concerns them). -/
structure AnalyticsSnapshot where
  total_calls : Nat
  incoming_calls : Nat
  outgoing_calls : Nat
  answered_calls : Nat
  missed_calls : Nat
  avg_duration : ℚ
  service_calls : Nat
  enquiry_calls : Nat
  service_percentage : ℚ
  enquiry_percentage : ℚ
  deriving DecidableEq

/-- The metric dict built from the merged, categorized DataFrame (the
`analytics = { ... }` block plus the guarded percentage computation). -/
def aggregate (merged : List (CallRecord × String)) : AnalyticsSnapshot :=
  { total_calls := merged.length
    incoming_calls := (merged.filter (fun e => decide (e.1.Direction = "inbound"))).length
    outgoing_calls :=
      (merged.filter (fun e => e.1.Direction.startsWith "outbound")).length
    answered_calls := (merged.filter (fun e => decide (e.1.Status = "completed"))).length
    missed_calls :=
      (merged.filter (fun e =>
        decide (e.1.Status = "no-answer") || decide (e.1.Status = "failed") ||
          decide (e.1.Status = "busy"))).length
    avg_duration :=
      if merged.isEmpty then 0
      else (merged.map (fun e => (e.1.Duration : ℚ))).sum / merged.length
    service_calls := (merged.filter (fun e => decide (e.2 = "service"))).length
    enquiry_calls := (merged.filter (fun e => decide (e.2 = "enquiry"))).length
    service_percentage :=
      if 0 < (merged.filter (fun e => decide (e.1.Direction = "inbound"))).length then
        pyRound1 (((merged.filter (fun e => decide (e.2 = "service"))).length : ℚ) /
          (merged.filter (fun e => decide (e.1.Direction = "inbound"))).length * 100)
      else 0
    enquiry_percentage :=
      if 0 < (merged.filter (fun e => decide (e.1.Direction = "inbound"))).length then
        pyRound1 (((merged.filter (fun e => decide (e.2 = "enquiry"))).length : ℚ) /
          (merged.filter (fun e => decide (e.1.Direction = "inbound"))).length * 100)
      else 0 }

/-- `ExotelAnalytics.process_analytics` (no exophone filter). `ok` is the
backing-store success flag threaded into `batch_lookup`. -/
def process_analytics (db : TenantDB) (ok : Bool) (calls : List CallRecord) :
    Option AnalyticsSnapshot :=
  if calls.isEmpty then none
  else some (aggregate (mergedCategories calls (batch_lookup db ok (uniqueFroms calls))))

/-! ### Period comparison (`calculate_comparison`) -/

/-- The comparison dict: absolute change and percentage change for each of
the four compared metrics. -/
structure ComparisonResult where
  total_calls_change : ℤ
  incoming_calls_change : ℤ
  service_calls_change : ℤ
  enquiry_calls_change : ℤ
  total_calls_pct : ℚ
  incoming_calls_pct : ℚ
  service_calls_pct : ℚ
  enquiry_calls_pct : ℚ
  deriving DecidableEq

/-- The all-zero comparison the function starts from and returns unchanged
when either snapshot is absent. -/
def neutralComparison : ComparisonResult :=
  { total_calls_change := 0, incoming_calls_change := 0
    service_calls_change := 0, enquiry_calls_change := 0
    total_calls_pct := 0, incoming_calls_pct := 0
    service_calls_pct := 0, enquiry_calls_pct := 0 }

/-- `calculate_comparison` (`app.py`): absent snapshots degrade to the
neutral result; each percentage is guarded by `previous > 0`. -/
def calculate_comparison (cur prev : Option AnalyticsSnapshot) : ComparisonResult :=
  match cur, prev with
  | some c, some p =>
    { total_calls_change := (c.total_calls : ℤ) - p.total_calls
      incoming_calls_change := (c.incoming_calls : ℤ) - p.incoming_calls
      service_calls_change := (c.service_calls : ℤ) - p.service_calls
      enquiry_calls_change := (c.enquiry_calls : ℤ) - p.enquiry_calls
      total_calls_pct :=
        if 0 < p.total_calls then
          pyRound1 (((c.total_calls : ℚ) - p.total_calls) / p.total_calls * 100) else 0
      incoming_calls_pct :=
        if 0 < p.incoming_calls then
          pyRound1 (((c.incoming_calls : ℚ) - p.incoming_calls) / p.incoming_calls * 100) else 0
      service_calls_pct :=
        if 0 < p.service_calls then
          pyRound1 (((c.service_calls : ℚ) - p.service_calls) / p.service_calls * 100) else 0
      enquiry_calls_pct :=
        if 0 < p.enquiry_calls then
          pyRound1 (((c.enquiry_calls : ℚ) - p.enquiry_calls) / p.enquiry_calls * 100) else 0 }
  | _, _ => neutralComparison

/-- All-zero snapshot fixture used by witnesses. -/
def snapZero : AnalyticsSnapshot := ⟨0, 0, 0, 0, 0, 0, 0, 0, 0, 0⟩

/-- Non-trivial snapshot fixture used by witnesses. -/
def snapCur : AnalyticsSnapshot := ⟨10, 5, 0, 0, 0, 0, 3, 2, 60, 40⟩

/-! ## Lemmas about normalization -/

theorem normStep_of_length_ne (d : List Char) (h : d.length ≠ 11) : normStep d = d := by
  unfold normStep
  exact if_neg (fun hc => h hc.2)

theorem normalizeDigits_normFormat (d : List Char)
    (h : d.length = 10 ∨ normStep d = d) :
    normalizeDigits (normFormat d) = normFormat d := by
  by_cases h10 : d.length = 10
  · have ho : normFormat d = '9' :: '1' :: d := by
      unfold normFormat
      rw [if_pos h10]
    rw [ho]
    have hs : normStep ('9' :: '1' :: d) = '9' :: '1' :: d :=
      normStep_of_length_ne _ (by simp [h10])
    unfold normalizeDigits
    rw [hs]
    unfold normFormat
    rw [if_neg (by simp [h10]), if_pos ⟨by simp [h10], by simp⟩]
  · by_cases h12 : d.length = 12 ∧ d.take 2 = ['9', '1']
    · have ho : normFormat d = d := by
        unfold normFormat
        rw [if_neg h10, if_pos h12]
      rw [ho]
      unfold normalizeDigits
      rw [normStep_of_length_ne _ (by omega)]
      unfold normFormat
      rw [if_neg h10, if_pos h12]
    · by_cases hgt : d.length > 12
      · have ho : normFormat d = d.drop (d.length - 12) := by
          unfold normFormat
          rw [if_neg h10, if_neg h12, if_pos hgt]
        have hlen : (d.drop (d.length - 12)).length = 12 := by
          rw [List.length_drop]
          omega
        rw [ho]
        unfold normalizeDigits
        rw [normStep_of_length_ne _ (by omega)]
        by_cases ht : (d.drop (d.length - 12)).take 2 = ['9', '1']
        · unfold normFormat
          rw [if_neg (by omega), if_pos ⟨hlen, ht⟩]
        · unfold normFormat
          rw [if_neg (by omega), if_neg (fun hc => ht hc.2), if_neg (by omega)]
      · have hstep : normStep d = d := by
          rcases h with h | h
          · exact absurd h h10
          · exact h
        have ho : normFormat d = d := by
          unfold normFormat
          rw [if_neg h10, if_neg h12, if_neg hgt]
        rw [ho]
        unfold normalizeDigits
        rw [hstep]
        exact ho

theorem normalizeDigits_idem (d : List Char) :
    normalizeDigits (normalizeDigits d) = normalizeDigits d := by
  have h : (normStep d).length = 10 ∨ normStep (normStep d) = normStep d := by
    by_cases hc : d.head? = some '0' ∧ d.length = 11
    · left
      have hd : normStep d = d.drop 1 := by
        unfold normStep
        exact if_pos hc
      rw [hd, List.length_drop, hc.2]
    · right
      have hd : normStep d = d := by
        unfold normStep
        exact if_neg hc
      rw [hd, hd]
  exact normalizeDigits_normFormat (normStep d) h

theorem normStep_digits (d : List Char) (h : ∀ c ∈ d, c.isDigit = true) :
    ∀ c ∈ normStep d, c.isDigit = true := by
  intro c hc
  unfold normStep at hc
  split_ifs at hc with h1
  · exact h c (List.drop_subset 1 d hc)
  · exact h c hc

theorem normalizeDigits_digits (d : List Char) (h : ∀ c ∈ d, c.isDigit = true) :
    ∀ c ∈ normalizeDigits d, c.isDigit = true := by
  have hstep := normStep_digits d h
  intro c hc
  unfold normalizeDigits normFormat at hc
  split_ifs at hc with h10 h12 hgt
  · simp only [List.mem_cons] at hc
    rcases hc with rfl | rfl | hc
    · decide
    · decide
    · exact hstep c hc
  · exact hstep c hc
  · exact hstep c (List.drop_subset _ _ hc)
  · exact hstep c hc

theorem normalizeDigits_ne_nil (d : List Char) (h : d ≠ []) :
    normalizeDigits d ≠ [] := by
  have hstep : normStep d ≠ [] := by
    unfold normStep
    split_ifs with h1
    · have hl : (d.drop 1).length = 10 := by
        rw [List.length_drop, h1.2]
      intro hnil
      rw [hnil] at hl
      simp at hl
    · exact h
  unfold normalizeDigits normFormat
  split_ifs with h10 h12 hgt
  · simp
  · exact hstep
  · have hl : ((normStep d).drop ((normStep d).length - 12)).length = 12 := by
      rw [List.length_drop]
      omega
    intro hnil
    rw [hnil] at hl
    simp at hl
  · exact hstep

theorem normalizeDigits_length_le (d : List Char) : (normalizeDigits d).length ≤ 12 := by
  unfold normalizeDigits normFormat
  split_ifs with h10 h12 hgt
  · simp [h10]
  · exact h12.1.le
  · rw [List.length_drop]
    omega
  · omega

/-! ## Claim C10 -/

/-- Claim C10: for every input, `normalize_phone` returns either null or a
string of only digit characters whose length is at most 12 (the
greater-than-12 branch truncates to the last 12 digits, and no branch
produces a longer output). -/
theorem normalize_output_invariant (s : String) :
    normalize_phone s = none ∨
      ∃ t, normalize_phone s = some t ∧ t.length ≤ 12 ∧ ∀ c ∈ t.data, c.isDigit = true := by
  unfold normalize_phone
  split_ifs with h
  · exact Or.inl rfl
  · refine Or.inr ⟨normKey s, rfl, ?_, ?_⟩
    · exact normalizeDigits_length_le _
    · exact normalizeDigits_digits _ (fun c hc => (List.mem_filter.mp hc).2)

/-! ## Claim C4 -/

/-- Claim C4 counterexample: the non-empty digit-free input `"abc"` does not
normalize to null; the stripped digit string is empty and is returned as the
empty string. -/
theorem normalize_nondigit_counterexample :
    normalize_phone "abc" = some "" ∧ normalize_phone "abc" ≠ none := by
  exact ⟨by decide, by decide⟩

/-- Claim C4 (amended): the three normalization examples hold and `""` maps
to null, but a non-empty input containing no digit characters maps to the
empty string (a falsy value), not to null. -/
theorem normalize_examples_amended :
    normalize_phone "+919876543210" = some "919876543210" ∧
    normalize_phone "9876543210" = some "919876543210" ∧
    normalize_phone "08840810719" = some "918840810719" ∧
    normalize_phone "" = none ∧
    ∀ s : String, s ≠ "" → (∀ c ∈ s.data, c.isDigit = false) →
      normalize_phone s = some "" := by
  refine ⟨by decide, by decide, by decide, by decide, ?_⟩
  intro s hne hnd
  unfold normalize_phone
  rw [if_neg hne]
  have hfil : s.data.filter Char.isDigit = [] := by
    rw [List.filter_eq_nil_iff]
    intro a ha
    simp [hnd a ha]
  unfold normKey
  rw [hfil]
  rfl

/-- Witness for the amended claim C4 at the concrete input `"abc"`. -/
theorem normalize_examples_witness : normalize_phone "abc" = some "" :=
  normalize_examples_amended.2.2.2.2 "abc" (by decide) (by decide)

/-! ## Claim C5 -/

/-- Claim C5: normalization is idempotent on digit-bearing inputs —
renormalizing the output of `normalize_phone` returns it unchanged. -/
theorem normalize_idempotent (s y : String)
    (hdig : s.data.any Char.isDigit = true)
    (h : normalize_phone s = some y) :
    normalize_phone y = some y := by
  have hne : s ≠ "" := by
    intro he
    subst he
    exact absurd hdig (by decide)
  unfold normalize_phone at h
  rw [if_neg hne] at h
  have hy : normKey s = y := Option.some.inj h
  subst hy
  have hds : s.data.filter Char.isDigit ≠ [] := by
    obtain ⟨c, hc, hcd⟩ := List.any_eq_true.mp hdig
    exact List.ne_nil_of_mem (List.mem_filter.mpr ⟨hc, hcd⟩)
  have hnd : normalizeDigits (s.data.filter Char.isDigit) ≠ [] :=
    normalizeDigits_ne_nil _ hds
  have hydata : (normKey s).data = normalizeDigits (s.data.filter Char.isDigit) := rfl
  have hyne : normKey s ≠ "" := by
    intro he
    have hd : (normKey s).data = [] := by rw [he]
    exact hnd (hydata ▸ hd)
  unfold normalize_phone
  rw [if_neg hyne]
  have hdigs : ∀ c ∈ (normKey s).data, c.isDigit = true := by
    rw [hydata]
    exact normalizeDigits_digits _ (fun c hc => (List.mem_filter.mp hc).2)
  have hfil : (normKey s).data.filter Char.isDigit = (normKey s).data :=
    List.filter_eq_self.mpr hdigs
  congr 1
  have h1 : normKey (normKey s) =
      String.mk (normalizeDigits ((normKey s).data.filter Char.isDigit)) := rfl
  rw [h1, hfil, hydata, normalizeDigits_idem]
  rfl

/-- Witness for claim C5 at the concrete input `"+919876543210"`. -/
theorem normalize_idempotent_witness :
    normalize_phone "919876543210" = some "919876543210" :=
  normalize_idempotent "+919876543210" "919876543210" (by decide) (by decide)

/-! ## Lemmas about the dict model -/

theorem dGet_map_pair {α β : Type} [DecidableEq α] (f : β → α) (l : List β) (k : α) :
    dGet (l.map (fun p => (f p, p))) k = lastSuchThat (fun p => decide (f p = k)) l := by
  induction l with
  | nil => rfl
  | cons a l ih =>
    simp only [List.map_cons, dGet, lastSuchThat, ih]
    cases lastSuchThat (fun p => decide (f p = k)) l with
    | some b => rfl
    | none =>
      by_cases h : f a = k
      · simp [h]
      · simp [h]

theorem lastSuchThat_spec {α : Type} (f : α → Bool) (l : List α) (a : α)
    (h : lastSuchThat f l = some a) : a ∈ l ∧ f a = true := by
  induction l with
  | nil => simp [lastSuchThat] at h
  | cons b l ih =>
    simp only [lastSuchThat] at h
    rcases hl : lastSuchThat f l with _ | c
    · rw [hl] at h
      split_ifs at h with hb
      · have hba : b = a := Option.some.inj h
        rw [← hba]
        exact ⟨List.mem_cons_self b l, hb⟩
    · rw [hl] at h
      have hca : c = a := Option.some.inj h
      rw [hca] at hl
      obtain ⟨hm, hf⟩ := ih hl
      exact ⟨List.mem_cons_of_mem b hm, hf⟩

theorem lastSuchThat_filter {α : Type} (f g : α → Bool) (l : List α) :
    lastSuchThat g (l.filter f) = lastSuchThat (fun a => f a && g a) l := by
  induction l with
  | nil => rfl
  | cons a l ih =>
    by_cases hf : f a = true
    · rw [List.filter_cons_of_pos hf]
      simp only [lastSuchThat, ih]
      cases lastSuchThat (fun a => f a && g a) l with
      | some b => rfl
      | none => simp [hf]
    · rw [List.filter_cons_of_neg (by simpa using hf), ih]
      simp only [lastSuchThat]
      cases lastSuchThat (fun a => f a && g a) l with
      | some b => rfl
      | none =>
        rw [Bool.not_eq_true] at hf
        simp [hf]

theorem mem_dedupKeys {α : Type} [DecidableEq α] (l : List α) (a : α) :
    a ∈ dedupKeys l ↔ a ∈ l := by
  induction l with
  | nil => simp [dedupKeys]
  | cons b l ih =>
    simp only [dedupKeys, List.mem_cons]
    constructor
    · rintro (rfl | h)
      · exact Or.inl rfl
      · exact Or.inr (ih.mp (List.mem_filter.mp h).1)
    · rintro (rfl | h)
      · exact Or.inl rfl
      · by_cases hab : a = b
        · exact Or.inl hab
        · exact Or.inr (List.mem_filter.mpr ⟨ih.mpr h, by simp [hab]⟩)

theorem mem_dItems {α β : Type} [DecidableEq α] (l : List (α × β)) (k : α) (v : β) :
    (k, v) ∈ dItems l ↔ k ∈ l.map Prod.fst ∧ dGet l k = some v := by
  unfold dItems
  rw [List.mem_filterMap]
  constructor
  · rintro ⟨k', hk', hkv⟩
    rcases hg : dGet l k' with _ | w
    · rw [hg] at hkv
      simp at hkv
    · rw [hg] at hkv
      simp only [Option.map_some', Option.some.injEq, Prod.mk.injEq] at hkv
      obtain ⟨hk, hw⟩ := hkv
      subst hk
      subst hw
      exact ⟨(mem_dedupKeys _ _).mp hk', hg⟩
  · rintro ⟨hk, hg⟩
    exact ⟨k, (mem_dedupKeys _ _).mpr hk, by rw [hg]; rfl⟩

/-! ## Lemmas about `batch_lookup` -/

theorem dGet_batchPairs (phones : List String) (k : String) :
    dGet (batchPairs phones) k =
      lastSuchThat (fun q => decide (q ≠ "") && decide (normKey q = k)) phones := by
  unfold batchPairs
  rw [dGet_map_pair]
  exact lastSuchThat_filter _ _ _

theorem batchPairs_map_fst (phones : List String) :
    (batchPairs phones).map Prod.fst =
      (phones.filter (fun p => decide (p ≠ ""))).map normKey := by
  unfold batchPairs
  rw [List.map_map]
  rfl

/-! ## Claim C3 -/

/-- Claim C3 (amended): when several raw phones of one batch normalize to
the same key, only the *last* such raw string (in input order, dict
insertion order) appears in the result dict, mapped to the classification of
that key; the earlier colliding raw strings are absent. Stated as an exact
characterization of the entries of `batch_lookup`. -/
theorem batch_lookup_last_raw (db : TenantDB) (phones : List String) (p : String)
    (r : LookupResult) :
    (p, r) ∈ batch_lookup db true phones ↔
      (lastSuchThat (fun q => decide (q ≠ "") && decide (normKey q = normKey p)) phones =
          some p ∧
        r = classifyKey db (batchKeys phones) (normKey p)) := by
  constructor
  · intro hmem
    unfold batch_lookup at hmem
    split_ifs at hmem with h1 h2
    · exact absurd hmem (List.not_mem_nil _)
    · exact absurd hmem (List.not_mem_nil _)
    · obtain ⟨e, he, heq⟩ := List.mem_map.mp hmem
      obtain ⟨k, w⟩ := e
      rw [Prod.mk.injEq] at heq
      obtain ⟨hw, hr⟩ := heq
      rw [← hw, ← hr]
      obtain ⟨hk, hget⟩ := (mem_dItems _ _ _).mp he
      rw [dGet_batchPairs] at hget
      have hkey : normKey w = k := by
        have hp := (lastSuchThat_spec _ _ _ hget).2
        simp only [Bool.and_eq_true, decide_eq_true_eq] at hp
        exact hp.2
      rw [hkey]
      exact ⟨hget, rfl⟩
  · rintro ⟨hl, hr⟩
    subst hr
    have hp' : lastSuchThat (fun q => decide (normKey q = normKey p))
        (phones.filter (fun q => decide (q ≠ ""))) = some p := by
      rw [lastSuchThat_filter]
      exact hl
    have hpf : p ∈ phones.filter (fun q => decide (q ≠ "")) :=
      (lastSuchThat_spec _ _ _ hp').1
    have hpair : (normKey p, p) ∈ batchPairs phones := by
      unfold batchPairs
      exact List.mem_map_of_mem _ hpf
    have hne : ¬(batchPairs phones).isEmpty = true := by
      intro hemp
      rw [List.isEmpty_iff] at hemp
      rw [hemp] at hpair
      exact List.not_mem_nil _ hpair
    unfold batch_lookup
    rw [if_neg hne, if_neg (by simp)]
    apply List.mem_map.mpr
    refine ⟨(normKey p, p), ?_, rfl⟩
    apply (mem_dItems _ _ _).mpr
    refine ⟨?_, ?_⟩
    · rw [batchPairs_map_fst]
      exact List.mem_map_of_mem _ hpf
    · rw [dGet_batchPairs]
      exact hl

/-- Claim C3 counterexample: `"+919876543210"` and `"9876543210"` normalize
to the same key, yet only the later raw string receives an entry in the
result dict; the earlier one is left without a result. -/
theorem batch_collision_counterexample :
    normKey "+919876543210" = normKey "9876543210" ∧
    dGet (batch_lookup ⟨[], []⟩ true ["+919876543210", "9876543210"]) "+919876543210" =
      none ∧
    dGet (batch_lookup ⟨[], []⟩ true ["+919876543210", "9876543210"]) "9876543210" =
      some (false, "enquiry", none) := by
  refine ⟨by decide, by decide, by decide⟩

/-! ## Claim C1 -/

/-- Claim C1: any entry of the `batch_lookup` result whose normalized key
matches a row of the live store is classified service with provenance
`live_data`, regardless of the historical store's contents. -/
theorem live_store_precedence (db : TenantDB) (phones : List String) (p : String)
    (r : LookupResult)
    (hmem : (p, r) ∈ batch_lookup db true phones)
    (hlive : ∃ row ∈ db.live, stripDigits row = normKey p) :
    r = (true, "service", some TenantInfo.liveData) := by
  obtain ⟨hl, hr⟩ := (batch_lookup_last_raw db phones p r).mp hmem
  have hp' : lastSuchThat (fun q => decide (normKey q = normKey p))
      (phones.filter (fun q => decide (q ≠ ""))) = some p := by
    rw [lastSuchThat_filter]
    exact hl
  have hpf : p ∈ phones.filter (fun q => decide (q ≠ "")) :=
    (lastSuchThat_spec _ _ _ hp').1
  have hkeys : normKey p ∈ batchKeys phones := by
    unfold batchKeys
    rw [mem_dedupKeys]
    exact List.mem_map_of_mem _ hpf
  have hin : normKey p ∈ liveResults db (batchKeys phones) := by
    unfold liveResults
    rw [List.mem_filter]
    obtain ⟨row, hrow, hstrip⟩ := hlive
    exact ⟨hstrip ▸ List.mem_map_of_mem stripDigits hrow, by simp [hkeys]⟩
  rw [hr]
  unfold classifyKey
  rw [if_pos hin]

/-- Witness for claim C1: a phone present (in different raw formats) in both
the live and the historical store classifies as service from the live store. -/
theorem live_store_precedence_witness :
    (("9876543210", ((true : Bool), "service", some TenantInfo.liveData)) ∈
        batch_lookup ⟨["+91 98765 43210"], [⟨"919876543210", "", "N", "P"⟩]⟩ true
          ["9876543210"]) ∧
    ((true : Bool), "service", (some TenantInfo.liveData : Option TenantInfo)) =
      (true, "service", some TenantInfo.liveData) :=
  ⟨by decide,
    live_store_precedence ⟨["+91 98765 43210"], [⟨"919876543210", "", "N", "P"⟩]⟩
      ["9876543210"] "9876543210" (true, "service", some TenantInfo.liveData)
      (by decide) ⟨"+91 98765 43210", by decide, by decide⟩⟩

/-! ## Lemmas about the pagination loop -/

theorem fetchGo_append (s₁ rest : List ApiResponse)
    (h : ∀ r ∈ s₁, continues r = true) :
    ∀ acc, fetchGo (s₁ ++ rest) acc = fetchGo rest (acc ++ s₁.flatMap pageRecords) := by
  induction s₁ with
  | nil =>
    intro acc
    simp
  | cons r s₁ ih =>
    intro acc
    have hr := h r (List.mem_cons_self _ _)
    cases r with
    | netFailure => simp [continues] at hr
    | response status calls next =>
      simp only [continues, Bool.and_eq_true, beq_iff_eq, Bool.not_eq_true',
        Option.isSome_iff_exists] at hr
      obtain ⟨⟨h200, hne⟩, u, hnext⟩ := hr
      subst h200
      subst hnext
      rw [List.cons_append]
      simp only [fetchGo]
      rw [if_pos trivial, if_neg (by simp [hne])]
      rw [ih (fun x hx => h x (List.mem_cons_of_mem _ hx)) (acc ++ calls)]
      simp [pageRecords, List.append_assoc]

theorem fetchRequests_append (s₁ rest : List ApiResponse)
    (h : ∀ r ∈ s₁, continues r = true) :
    fetchRequests (s₁ ++ rest) = s₁.length + fetchRequests rest := by
  induction s₁ with
  | nil => simp [fetchRequests]
  | cons r s₁ ih =>
    have hr := h r (List.mem_cons_self _ _)
    rw [List.cons_append]
    simp only [fetchRequests]
    rw [if_pos hr, ih (fun x hx => h x (List.mem_cons_of_mem _ hx))]
    simp [List.length_cons]
    omega

theorem fetchRequests_stop (s₁ s₂ : List ApiResponse) (r : ApiResponse)
    (h : continues r = false) :
    fetchRequests (s₁ ++ r :: s₂) ≤ s₁.length + 1 := by
  induction s₁ with
  | nil =>
    rw [List.nil_append]
    simp only [fetchRequests]
    rw [if_neg (by simp [h])]
    simp
  | cons a s₁ ih =>
    rw [List.cons_append]
    simp only [fetchRequests]
    split_ifs
    · simp only [List.length_cons]
      omega
    · simp

theorem fetchRequests_le_records (s : List ApiResponse) :
    fetchRequests s ≤ scriptRecords s + 1 := by
  induction s with
  | nil => simp [fetchRequests, scriptRecords]
  | cons r s ih =>
    unfold scriptRecords at ih ⊢
    rw [List.map_cons, List.sum_cons]
    simp only [fetchRequests]
    split_ifs with hc
    · have hone : 1 ≤ (pageRecords r).length := by
        cases r with
        | netFailure => simp [continues] at hc
        | response status calls next =>
          simp only [continues, Bool.and_eq_true, beq_iff_eq, Bool.not_eq_true'] at hc
          obtain ⟨⟨h200, hne⟩, _⟩ := hc
          subst h200
          have hcne : calls ≠ [] := by
            intro hnil
            rw [hnil] at hne
            simp at hne
          have hpage : pageRecords (ApiResponse.response 200 calls next) = calls := by
            simp [pageRecords]
          rw [hpage]
          have := List.length_pos.mpr hcne
          omega
      omega
    · omega

/-! ## Claim C2 -/

/-- Claim C2 counterexample: after one successfully fetched page, a
timeout / connection failure makes `fetch_calls` return the empty list (the
function-level `except` discards the accumulated records), while a non-2xx
status at the same point returns the accumulated page — the two cases are
not identical. -/
theorem fetch_netfailure_counterexample :
    fetch_calls [ApiResponse.response 200 [recA] (some "/p2"), ApiResponse.netFailure] =
      some [] ∧
    fetch_calls [ApiResponse.response 200 [recA] (some "/p2"),
        ApiResponse.response 500 [] none] = some [recA] := by
  exact ⟨by decide, by decide⟩

/-- Claim C2 (amended): a non-success HTTP status aborts pagination
immediately (no retry) and returns exactly the records accumulated so far;
a timeout / connection failure also aborts immediately with no retry, but
returns the empty list, discarding the accumulated records — the two cases
are not identical. -/
theorem fetch_failure_modes (s₁ s₂ : List ApiResponse) (status : Nat)
    (calls : List CallRecord) (next : Option String)
    (hcont : ∀ r ∈ s₁, continues r = true) (hstatus : status ≠ 200) :
    fetch_calls (s₁ ++ ApiResponse.response status calls next :: s₂) =
        some (s₁.flatMap pageRecords) ∧
      fetchRequests (s₁ ++ ApiResponse.response status calls next :: s₂) =
        s₁.length + 1 ∧
      fetch_calls (s₁ ++ ApiResponse.netFailure :: s₂) = some [] ∧
      fetchRequests (s₁ ++ ApiResponse.netFailure :: s₂) = s₁.length + 1 := by
  refine ⟨?_, ?_, ?_, ?_⟩
  · unfold fetch_calls
    rw [fetchGo_append _ _ hcont]
    simp only [fetchGo]
    rw [if_neg hstatus]
    simp
  · rw [fetchRequests_append _ _ hcont]
    have h1 : fetchRequests (ApiResponse.response status calls next :: s₂) = 1 := by
      simp only [fetchRequests]
      rw [if_neg (by simp [continues, hstatus])]
    rw [h1]
  · unfold fetch_calls
    rw [fetchGo_append _ _ hcont]
    rfl
  · rw [fetchRequests_append _ _ hcont]
    have h1 : fetchRequests (ApiResponse.netFailure :: s₂) = 1 := by
      simp only [fetchRequests]
      rw [if_neg (by simp [continues])]
    rw [h1]

/-- Witness for the amended claim C2 on a concrete two-request script. -/
theorem fetch_failure_modes_witness :
    fetch_calls ([ApiResponse.response 200 [recA] (some "/p2")] ++
        ApiResponse.response 500 [] none :: []) =
      some ([ApiResponse.response 200 [recA] (some "/p2")].flatMap pageRecords) ∧
    fetchRequests ([ApiResponse.response 200 [recA] (some "/p2")] ++
        ApiResponse.response 500 [] none :: []) =
      [ApiResponse.response 200 [recA] (some "/p2")].length + 1 ∧
    fetch_calls ([ApiResponse.response 200 [recA] (some "/p2")] ++
        ApiResponse.netFailure :: []) = some [] ∧
    fetchRequests ([ApiResponse.response 200 [recA] (some "/p2")] ++
        ApiResponse.netFailure :: []) =
      [ApiResponse.response 200 [recA] (some "/p2")].length + 1 :=
  fetch_failure_modes [ApiResponse.response 200 [recA] (some "/p2")] [] 500 [] none
    (by decide) (by decide)

/-! ## Claim C6 -/

/-- Claim C6 counterexample: three pages of one record each followed by an
empty page make the loop issue 4 requests while returning 3 records, so with
`pageSize = 100` the claimed bound `ceil(3 / 100) + 1 = 2` is exceeded. -/
theorem pagination_bound_counterexample :
    fetch_calls [ApiResponse.response 200 [recA] (some "/p"),
        ApiResponse.response 200 [recB] (some "/p"),
        ApiResponse.response 200 [recC] (some "/p"),
        ApiResponse.response 200 [] none] = some [recA, recB, recC] ∧
    fetchRequests [ApiResponse.response 200 [recA] (some "/p"),
        ApiResponse.response 200 [recB] (some "/p"),
        ApiResponse.response 200 [recC] (some "/p"),
        ApiResponse.response 200 [] none] = 4 ∧
    ¬(fetchRequests [ApiResponse.response 200 [recA] (some "/p"),
        ApiResponse.response 200 [recB] (some "/p"),
        ApiResponse.response 200 [recC] (some "/p"),
        ApiResponse.response 200 [] none] ≤ (3 + 100 - 1) / 100 + 1) := by
  refine ⟨by decide, by decide, by decide⟩

/-- Claim C6 (amended): the loop issues at most `totalRecords + 1` requests,
where `totalRecords` counts the records delivered by the successful pages of
the exchange (each non-final request yields at least one record), and it
never issues a further request after a response whose page is empty or whose
metadata carries no next-page cursor. -/
theorem pagination_request_bound :
    (∀ s : List ApiResponse, fetchRequests s ≤ scriptRecords s + 1) ∧
    ∀ (s₁ s₂ : List ApiResponse) (status : Nat) (calls : List CallRecord)
      (next : Option String), calls = [] ∨ next = none →
      fetchRequests (s₁ ++ ApiResponse.response status calls next :: s₂) ≤
        s₁.length + 1 := by
  constructor
  · exact fetchRequests_le_records
  · intro s₁ s₂ status calls next h
    apply fetchRequests_stop
    rcases h with rfl | rfl
    · simp [continues]
    · simp [continues]

/-- Witness for the amended claim C6 on concrete scripts. -/
theorem pagination_request_bound_witness :
    fetchRequests [ApiResponse.response 200 [recA] (some "/p2")] ≤
      scriptRecords [ApiResponse.response 200 [recA] (some "/p2")] + 1 ∧
    fetchRequests (([] : List ApiResponse) ++
        ApiResponse.response 200 [] (some "/p2") :: []) ≤
      ([] : List ApiResponse).length + 1 :=
  ⟨pagination_request_bound.1 _,
    pagination_request_bound.2 [] [] 200 [] (some "/p2") (Or.inl rfl)⟩

/-! ## Lemmas about rounding -/

theorem roundHalfEven_bounds (q : ℚ) :
    Int.floor q ≤ roundHalfEven q ∧ roundHalfEven q ≤ Int.floor q + 1 := by
  unfold roundHalfEven
  split_ifs <;> omega

theorem roundHalfEven_nonneg (q : ℚ) (h : 0 ≤ q) : 0 ≤ roundHalfEven q := by
  have h1 := (roundHalfEven_bounds q).1
  have h2 : (0 : ℤ) ≤ Int.floor q := Int.floor_nonneg.mpr h
  omega

theorem roundHalfEven_le_of_le (q : ℚ) (B : ℤ) (h : q ≤ B) : roundHalfEven q ≤ B := by
  have hf : Int.floor q ≤ B := by
    have hff := Int.floor_le_floor h
    rwa [Int.floor_intCast] at hff
  unfold roundHalfEven
  split_ifs with h1 h2 h3
  · exact hf
  · by_contra hc
    push_neg at hc
    have hfb : Int.floor q = B := by omega
    rw [hfb] at h2
    have hle : q - (B : ℚ) ≤ 0 := by linarith
    linarith
  · exact hf
  · by_contra hc
    push_neg at hc
    have hfb : Int.floor q = B := by omega
    rw [hfb] at h1
    push_neg at h1
    have hle : q - (B : ℚ) ≤ 0 := by linarith
    linarith

theorem pyRound1_nonneg (q : ℚ) (h : 0 ≤ q) : 0 ≤ pyRound1 q := by
  unfold pyRound1
  have h10 : (0 : ℚ) ≤ q * 10 := by positivity
  have hr := roundHalfEven_nonneg _ h10
  apply div_nonneg
  · exact_mod_cast hr
  · norm_num

theorem pyRound1_le_100 (q : ℚ) (h : q ≤ 100) : pyRound1 q ≤ 100 := by
  unfold pyRound1
  have h10 : q * 10 ≤ ((1000 : ℤ) : ℚ) := by push_cast; linarith
  have hr := roundHalfEven_le_of_le _ _ h10
  rw [div_le_iff₀ (by norm_num : (0 : ℚ) < 10)]
  have hrq : ((roundHalfEven (q * 10) : ℤ) : ℚ) ≤ ((1000 : ℤ) : ℚ) := by exact_mod_cast hr
  push_cast at hrq ⊢
  linarith

/-! ## Claim C8 -/

/-- Claim C8: for each of the four compared metrics the percentage change is
exactly 0 whenever the previous-period value is 0, while the absolute delta
`current - previous` is still reported; and when either snapshot is absent
every delta and percentage is 0 — the comparison never fails. -/
theorem comparison_zero_guard (c p : AnalyticsSnapshot) (x : Option AnalyticsSnapshot) :
    ((calculate_comparison (some c) (some p)).total_calls_change =
        (c.total_calls : ℤ) - p.total_calls ∧
      (calculate_comparison (some c) (some p)).incoming_calls_change =
        (c.incoming_calls : ℤ) - p.incoming_calls ∧
      (calculate_comparison (some c) (some p)).service_calls_change =
        (c.service_calls : ℤ) - p.service_calls ∧
      (calculate_comparison (some c) (some p)).enquiry_calls_change =
        (c.enquiry_calls : ℤ) - p.enquiry_calls) ∧
    ((p.total_calls = 0 → (calculate_comparison (some c) (some p)).total_calls_pct = 0) ∧
      (p.incoming_calls = 0 →
        (calculate_comparison (some c) (some p)).incoming_calls_pct = 0) ∧
      (p.service_calls = 0 →
        (calculate_comparison (some c) (some p)).service_calls_pct = 0) ∧
      (p.enquiry_calls = 0 →
        (calculate_comparison (some c) (some p)).enquiry_calls_pct = 0)) ∧
    (calculate_comparison none x = neutralComparison ∧
      calculate_comparison x none = neutralComparison) := by
  refine ⟨⟨rfl, rfl, rfl, rfl⟩, ⟨?_, ?_, ?_, ?_⟩, ?_, ?_⟩
  · intro h
    simp [calculate_comparison, h]
  · intro h
    simp [calculate_comparison, h]
  · intro h
    simp [calculate_comparison, h]
  · intro h
    simp [calculate_comparison, h]
  · cases x <;> rfl
  · cases x <;> rfl

/-- Witness for claim C8 at a previous snapshot whose metrics are all 0. -/
theorem comparison_zero_guard_witness :
    snapZero.total_calls = 0 ∧
    (calculate_comparison (some snapCur) (some snapZero)).total_calls_pct = 0 ∧
    (calculate_comparison (some snapCur) (some snapZero)).incoming_calls_pct = 0 ∧
    (calculate_comparison (some snapCur) (some snapZero)).service_calls_pct = 0 ∧
    (calculate_comparison (some snapCur) (some snapZero)).enquiry_calls_pct = 0 ∧
    (calculate_comparison (some snapCur) (some snapZero)).total_calls_change = 10 :=
  ⟨rfl,
    (comparison_zero_guard snapCur snapZero none).2.1.1 rfl,
    (comparison_zero_guard snapCur snapZero none).2.1.2.1 rfl,
    (comparison_zero_guard snapCur snapZero none).2.1.2.2.1 rfl,
    (comparison_zero_guard snapCur snapZero none).2.1.2.2.2 rfl,
    by decide⟩

/-! ## Lemmas about aggregation -/

theorem nodup_map_inj {α β : Type} (f : α → β) (l : List α)
    (h : (l.map f).Nodup) : ∀ a ∈ l, ∀ b ∈ l, f a = f b → a = b := by
  induction l with
  | nil =>
    intro a ha
    simp at ha
  | cons c l ih =>
    rw [List.map_cons, List.nodup_cons] at h
    obtain ⟨hnc, hnd⟩ := h
    intro a ha b hb hfab
    rcases List.mem_cons.mp ha with rfl | ha'
    · rcases List.mem_cons.mp hb with rfl | hb'
      · rfl
      · exfalso
        apply hnc
        rw [hfab]
        exact List.mem_map_of_mem f hb'
    · rcases List.mem_cons.mp hb with rfl | hb'
      · exfalso
        apply hnc
        rw [← hfab]
        exact List.mem_map_of_mem f ha'
      · exact ih hnd a ha' b hb' hfab

theorem nodup_all_eq_singleton {α : Type} (l : List α) (r : α) (hnd : l.Nodup)
    (hr : r ∈ l) (hall : ∀ s ∈ l, s = r) : l = [r] := by
  cases l with
  | nil => simp at hr
  | cons a t =>
    have ht : t = [] := by
      rw [List.eq_nil_iff_forall_not_mem]
      intro s hs
      have hsr : s = r := hall s (List.mem_cons_of_mem _ hs)
      have har : a = r := hall a (List.mem_cons_self _ _)
      rw [List.nodup_cons] at hnd
      apply hnd.1
      rw [har, ← hsr]
      exact hs
    rw [ht, hall a (List.mem_cons_self _ _)]

theorem sidMatches_eq (calls : List CallRecord) (r : CallRecord)
    (hnd : (calls.map (fun x => x.Sid)).Nodup) (hr : r ∈ calls) :
    sidMatches calls r = if r.Direction = "inbound" then [r] else [] := by
  have hall : ∀ s ∈ sidMatches calls r, s = r := by
    intro s hs
    have hs1 := List.mem_filter.mp hs
    have hs2 := List.mem_filter.mp hs1.1
    have hsid : s.Sid = r.Sid := by simpa using hs1.2
    exact nodup_map_inj _ _ hnd s hs2.1 r hr hsid
  by_cases hd : r.Direction = "inbound"
  · rw [if_pos hd]
    apply nodup_all_eq_singleton _ _ ?_ ?_ hall
    · exact ((List.Nodup.of_map _ hnd).filter _).filter _
    · apply List.mem_filter.mpr
      exact ⟨List.mem_filter.mpr ⟨hr, by simpa using hd⟩, by simp⟩
  · rw [if_neg hd]
    rw [List.eq_nil_iff_forall_not_mem]
    intro s hs
    have hsr := hall s hs
    have hs1 := List.mem_filter.mp hs
    have hs2 := List.mem_filter.mp hs1.1
    have hsd : s.Direction = "inbound" := by simpa using hs2.2
    rw [hsr] at hsd
    exact hd hsd

theorem flatMap_eq_map {α β : Type} (l : List α) (f : α → List β) (g : α → β)
    (h : ∀ a ∈ l, f a = [g a]) : l.flatMap f = l.map g := by
  induction l with
  | nil => rfl
  | cons a t ih =>
    rw [List.flatMap_cons, List.map_cons, h a (List.mem_cons_self _ _),
      ih (fun x hx => h x (List.mem_cons_of_mem _ hx))]
    rfl

/-- Under pairwise-distinct `Sid`s the pandas left merge degenerates to a
per-row categorization: inbound rows get their phone's category, others get
`outgoing`. -/
theorem mergedCategories_eq (calls : List CallRecord)
    (lookup : List (String × LookupResult))
    (hnd : (calls.map (fun x => x.Sid)).Nodup) :
    mergedCategories calls lookup =
      calls.map (fun r =>
        (r, if r.Direction = "inbound" then categoryOf lookup r.From else "outgoing")) := by
  unfold mergedCategories
  apply flatMap_eq_map
  intro r hr
  rw [sidMatches_eq calls r hnd hr]
  by_cases hd : r.Direction = "inbound"
  · rw [if_pos hd, if_pos hd]
    simp
  · rw [if_neg hd, if_neg hd]
    simp

theorem length_filter_mono {α : Type} (p q : α → Bool) (l : List α)
    (h : ∀ a ∈ l, p a = true → q a = true) :
    (l.filter p).length ≤ (l.filter q).length := by
  induction l with
  | nil => simp
  | cons a t ih =>
    have iht := ih (fun x hx => h x (List.mem_cons_of_mem _ hx))
    by_cases hp : p a = true
    · rw [List.filter_cons_of_pos hp,
        List.filter_cons_of_pos (h a (List.mem_cons_self _ _) hp)]
      simpa using iht
    · rw [List.filter_cons_of_neg (by simpa using hp)]
      by_cases hq : q a = true
      · rw [List.filter_cons_of_pos hq]
        exact le_trans iht (by simp)
      · rw [List.filter_cons_of_neg (by simpa using hq)]
        exact iht

theorem length_filter_map {α β : Type} (f : α → β) (p : β → Bool) (l : List α) :
    ((l.map f).filter p).length = (l.filter (fun a => p (f a))).length := by
  induction l with
  | nil => rfl
  | cons a t ih =>
    simp only [List.map_cons, List.filter_cons]
    by_cases h : p (f a) = true
    · simp [h, ih]
    · simp [h, ih]

theorem batch_lookup_fail (db : TenantDB) (phones : List String) :
    batch_lookup db false phones = [] := by
  unfold batch_lookup
  split_ifs with h1 h2
  · rfl
  · rfl
  · simp at h2

theorem categoryOf_nil (phone : String) : categoryOf [] phone = "enquiry" := rfl

/-- In a merged row set coming from distinct-`Sid` records, any category
other than `outgoing` occurs only on inbound rows. -/
theorem merged_cat_inbound (calls : List CallRecord)
    (lookup : List (String × LookupResult)) (s : String)
    (hnd : (calls.map (fun x => x.Sid)).Nodup) (hs : s ≠ "outgoing") :
    ((mergedCategories calls lookup).filter (fun e => decide (e.2 = s))).length ≤
      ((mergedCategories calls lookup).filter
        (fun e => decide (e.1.Direction = "inbound"))).length := by
  apply length_filter_mono
  intro e he hse
  rw [mergedCategories_eq _ _ hnd] at he
  obtain ⟨r, hr, rfl⟩ := List.mem_map.mp he
  replace hse : (if r.Direction = "inbound" then categoryOf lookup r.From else "outgoing") = s :=
    by simpa using hse
  by_cases hd : r.Direction = "inbound"
  · simpa using hd
  · rw [if_neg hd] at hse
    exact absurd hse.symm hs

/-- Field projections of `aggregate` (the percentage fields restated through
the count fields). -/
theorem aggregate_service_percentage (m : List (CallRecord × String)) :
    (aggregate m).service_percentage =
      if 0 < (aggregate m).incoming_calls then
        pyRound1 (((aggregate m).service_calls : ℚ) / (aggregate m).incoming_calls * 100)
      else 0 := rfl

theorem aggregate_enquiry_percentage (m : List (CallRecord × String)) :
    (aggregate m).enquiry_percentage =
      if 0 < (aggregate m).incoming_calls then
        pyRound1 (((aggregate m).enquiry_calls : ℚ) / (aggregate m).incoming_calls * 100)
      else 0 := rfl

/-! ## Claim C7 -/

/-- Claim C7: when the backing-store queries fail, the pipeline still
completes aggregation, classifies no call as service, and counts every
inbound call as enquiry. -/
theorem lookup_failure_degrades (db : TenantDB) (calls : List CallRecord)
    (hne : calls ≠ []) (hnd : (calls.map (fun x => x.Sid)).Nodup) :
    ∃ a, process_analytics db false calls = some a ∧
      a.service_calls = 0 ∧ a.enquiry_calls = a.incoming_calls := by
  have hemp : ¬calls.isEmpty = true := by
    simpa [List.isEmpty_iff] using hne
  unfold process_analytics
  rw [if_neg hemp]
  refine ⟨_, rfl, ?_, ?_⟩
  · show ((mergedCategories calls (batch_lookup db false (uniqueFroms calls))).filter
      (fun e => decide (e.2 = "service"))).length = 0
    rw [batch_lookup_fail, mergedCategories_eq _ _ hnd, List.length_eq_zero,
      List.filter_eq_nil_iff]
    intro e he
    obtain ⟨r, hr, rfl⟩ := List.mem_map.mp he
    show ¬decide ((if r.Direction = "inbound" then categoryOf [] r.From else "outgoing") =
      "service") = true
    by_cases hd : r.Direction = "inbound"
    · rw [if_pos hd, categoryOf_nil]
      decide
    · rw [if_neg hd]
      decide
  · show ((mergedCategories calls (batch_lookup db false (uniqueFroms calls))).filter
        (fun e => decide (e.2 = "enquiry"))).length =
      ((mergedCategories calls (batch_lookup db false (uniqueFroms calls))).filter
        (fun e => decide (e.1.Direction = "inbound"))).length
    rw [batch_lookup_fail, mergedCategories_eq _ _ hnd, length_filter_map,
      length_filter_map]
    congr 1
    apply List.filter_congr
    intro r hr
    show decide ((if r.Direction = "inbound" then categoryOf [] r.From else "outgoing") =
      "enquiry") = decide (r.Direction = "inbound")
    by_cases hd : r.Direction = "inbound"
    · rw [if_pos hd, categoryOf_nil]
      simp [hd]
    · rw [if_neg hd]
      simp [hd]

/-- Witness for claim C7: one inbound and one outbound record against failed
store queries. -/
theorem lookup_failure_degrades_witness :
    ([recA, recC] ≠ ([] : List CallRecord)) ∧
    (([recA, recC].map (fun x => x.Sid)).Nodup) ∧
    ∃ a, process_analytics ⟨[], []⟩ false [recA, recC] = some a ∧
      a.service_calls = 0 ∧ a.enquiry_calls = a.incoming_calls :=
  ⟨by decide, by decide,
    lookup_failure_degrades ⟨[], []⟩ [recA, recC] (by decide) (by decide)⟩

/-! ## Claim C9 -/

/-- Claim C9: in every snapshot produced from distinct-`Sid` records, the
service and enquiry percentages equal `round(count / incoming * 100, 1)`
when `incoming > 0`, are 0 when `incoming = 0`, and always lie in [0, 100]. -/
theorem analytics_percentages (db : TenantDB) (ok : Bool) (calls : List CallRecord)
    (a : AnalyticsSnapshot)
    (hnd : (calls.map (fun x => x.Sid)).Nodup)
    (h : process_analytics db ok calls = some a) :
    (0 < a.incoming_calls →
        a.service_percentage = pyRound1 ((a.service_calls : ℚ) / a.incoming_calls * 100) ∧
        a.enquiry_percentage = pyRound1 ((a.enquiry_calls : ℚ) / a.incoming_calls * 100)) ∧
      (a.incoming_calls = 0 → a.service_percentage = 0 ∧ a.enquiry_percentage = 0) ∧
      (0 ≤ a.service_percentage ∧ a.service_percentage ≤ 100) ∧
      (0 ≤ a.enquiry_percentage ∧ a.enquiry_percentage ≤ 100) := by
  unfold process_analytics at h
  split_ifs at h with hemp
  have ha := Option.some.inj h
  subst ha
  have hserv : (aggregate (mergedCategories calls
        (batch_lookup db ok (uniqueFroms calls)))).service_calls ≤
      (aggregate (mergedCategories calls
        (batch_lookup db ok (uniqueFroms calls)))).incoming_calls :=
    merged_cat_inbound calls _ "service" hnd (by decide)
  have henq : (aggregate (mergedCategories calls
        (batch_lookup db ok (uniqueFroms calls)))).enquiry_calls ≤
      (aggregate (mergedCategories calls
        (batch_lookup db ok (uniqueFroms calls)))).incoming_calls :=
    merged_cat_inbound calls _ "enquiry" hnd (by decide)
  refine ⟨?_, ?_, ?_, ?_⟩
  · intro hi
    rw [aggregate_service_percentage, aggregate_enquiry_percentage, if_pos hi, if_pos hi]
    exact ⟨rfl, rfl⟩
  · intro hi
    rw [aggregate_service_percentage, aggregate_enquiry_percentage, if_neg (by omega),
      if_neg (by omega)]
    exact ⟨rfl, rfl⟩
  · rw [aggregate_service_percentage]
    split_ifs with hi
    · have hipos : (0 : ℚ) <
          ((aggregate (mergedCategories calls
            (batch_lookup db ok (uniqueFroms calls)))).incoming_calls : ℚ) := by
        exact_mod_cast hi
      have hle : ((aggregate (mergedCategories calls
            (batch_lookup db ok (uniqueFroms calls)))).service_calls : ℚ) ≤
          ((aggregate (mergedCategories calls
            (batch_lookup db ok (uniqueFroms calls)))).incoming_calls : ℚ) := by
        exact_mod_cast hserv
      constructor
      · apply pyRound1_nonneg
        positivity
      · apply pyRound1_le_100
        have h1 := (div_le_one hipos).mpr hle
        nlinarith
    · norm_num
  · rw [aggregate_enquiry_percentage]
    split_ifs with hi
    · have hipos : (0 : ℚ) <
          ((aggregate (mergedCategories calls
            (batch_lookup db ok (uniqueFroms calls)))).incoming_calls : ℚ) := by
        exact_mod_cast hi
      have hle : ((aggregate (mergedCategories calls
            (batch_lookup db ok (uniqueFroms calls)))).enquiry_calls : ℚ) ≤
          ((aggregate (mergedCategories calls
            (batch_lookup db ok (uniqueFroms calls)))).incoming_calls : ℚ) := by
        exact_mod_cast henq
      constructor
      · apply pyRound1_nonneg
        positivity
      · apply pyRound1_le_100
        have h1 := (div_le_one hipos).mpr hle
        nlinarith
    · norm_num

/-- Witness for claim C9: the snapshot from one inbound record against empty
stores has both percentages inside [0, 100]. -/
theorem analytics_percentages_witness :
    (([recA].map (fun x => x.Sid)).Nodup) ∧
    (0 ≤ (aggregate (mergedCategories [recA]
          (batch_lookup ⟨[], []⟩ true (uniqueFroms [recA])))).service_percentage ∧
      (aggregate (mergedCategories [recA]
          (batch_lookup ⟨[], []⟩ true (uniqueFroms [recA])))).service_percentage ≤ 100) ∧
    (0 ≤ (aggregate (mergedCategories [recA]
          (batch_lookup ⟨[], []⟩ true (uniqueFroms [recA])))).enquiry_percentage ∧
      (aggregate (mergedCategories [recA]
          (batch_lookup ⟨[], []⟩ true (uniqueFroms [recA])))).enquiry_percentage ≤ 100) :=
  ⟨by decide,
    (analytics_percentages ⟨[], []⟩ true [recA] _ (by decide) rfl).2.2.1,
    (analytics_percentages ⟨[], []⟩ true [recA] _ (by decide) rfl).2.2.2⟩

end ExotelAnalytics
